import Mathlib

/-!
A shallow embedding of `sudokupy.py`, a 9x9 Sudoku solver that works by
naive constraint propagation, together with proofs of the spec-level
properties of its data model and algorithms.

The mutable Python objects are modelled by explicit state passing: a grid
state maps each linear cell position to that cell's candidate set (the
field `Digit.v` in the source).  Group membership (rows, columns, boxes)
is a pure function of the position, exactly as computed by `row_col_box`
and appended by `Grid.__init__` in the source.  The one operation that can
raise, `Digit.not_possible`, returns `Except String`; the group- and
grid-level operations are given both in an `Except`-valued form that is
literally faithful to the source and in a pure `...Run` form, and the two
forms are proved equal (`Except.ok` is always returned, since the group
loop only calls the cell-level elimination on members that are unsolved
at that moment).
-/

/-- A grid state: the candidate set of every cell position (`Digit.v`).
Only positions `0..80` exist in the source; the groups and the grid
operations below only ever touch those. -/
def GridState : Type := ℕ → Finset ℕ

/-- Overwrite the candidate set of the cell at position `p` (models the
mutation of one `Digit` object inside the grid). -/
def updateCell (g : GridState) (p : ℕ) (w : Finset ℕ) : GridState :=
  fun q => if q = p then w else g q

/-- `UNKNOWN_DIGIT_INPUT = "-._ 0"`: any of these characters is accepted
as an unknown cell in the puzzle text. -/
def UNKNOWN_DIGIT_INPUT : List Char := ['-', '.', '_', ' ', '0']

/-- `ROW_TERMINATOR = "\n\r"`. -/
def ROW_TERMINATOR : List Char := ['\n', '\r']

/-- The characters `"123456789"` recognized as given digits by `Grid.load`. -/
def digitChars : List Char := ['1', '2', '3', '4', '5', '6', '7', '8', '9']

/-- `Digit.solved`: a digit is solved when only one possible value is left
(`1 == len(self.v)`). -/
def Digit.solved (v : Finset ℕ) : Bool := v.card == 1

/-- `Digit.getSolvedValue`: the sole remaining candidate if solved, else
`None` (`int(list(self.v)[0])`; under the `solved()` guard the set is a
singleton, whose sole element `Finset.sup id` extracts). -/
def Digit.getSolvedValue (v : Finset ℕ) : Option ℕ :=
  if Digit.solved v then some (v.sup id) else none

/-- The value of a solved digit, as used by `Digit.propagate` (where the
source calls `self.getSolvedValue()` under the `solved()` guard, so the
default `0` is never actually used). -/
def Digit.solvedValueD (v : Finset ℕ) : ℕ := (Digit.getSolvedValue v).getD 0

/-- `Digit.setSolvedValue`: sets the candidate set to the singleton
`set([myvalue])`.  (The `propagate` flag of the source defaults to `False`
and is never passed as `True`; `Grid.load` stores the digit character,
which `getSolvedValue` later converts with `int`, so storing the numeric
value directly is equivalent.) -/
def Digit.setSolvedValue (myvalue : ℕ) : Finset ℕ := {myvalue}

/-- `Digit.not_possible`: raises if the digit is already solved
("at least one value has to be possible"), otherwise discards `value`
from the candidate set.  (The `recurse` flag defaults to `False` and no
caller passes `True`.) -/
def Digit.not_possible (v : Finset ℕ) (value : ℕ) : Except String (Finset ℕ) :=
  if Digit.solved v then Except.error "at least one value has to be possible"
  else Except.ok (v.erase value)

/-- `row_col_box(position)`: the row, column and box number of a linear
position (`r = position/9`, `c = position%9`, `b = (r/3)*3 + (c/3)`). -/
def row_col_box (position : ℕ) : ℕ × ℕ × ℕ :=
  let r := position / 9
  let c := position % 9
  let b := r / 3 * 3 + c / 3
  (r, c, b)

/-- The member positions of row group `r`, in the order `Grid.__init__`
appends them (increasing position). -/
def rowMembers (r : ℕ) : List ℕ :=
  (List.range 81).filter (fun p => (row_col_box p).1 == r)

/-- The member positions of column group `c`. -/
def colMembers (c : ℕ) : List ℕ :=
  (List.range 81).filter (fun p => (row_col_box p).2.1 == c)

/-- The member positions of box group `b`. -/
def boxMembers (b : ℕ) : List ℕ :=
  (List.range 81).filter (fun p => (row_col_box p).2.2 == b)

/-- The 27 groups of the grid: 9 rows, 9 columns, 9 boxes. -/
def allGroups : List (List ℕ) :=
  (List.range 9).map rowMembers ++ (List.range 9).map colMembers
    ++ (List.range 9).map boxMembers

/-- The freshly constructed grid: every digit starts with candidate set
`{1,...,9}` (`Digit.__init__` default `values`). -/
def Grid.init : GridState := fun _ => ({1, 2, 3, 4, 5, 6, 7, 8, 9} : Finset ℕ)

/-- The body of the loop in `DigitGroup.not_possible`: skip solved
members, ask unsolved members to discard `value`.  Pure form (justified
by `npStepE_eq_ok` below). -/
def DigitGroup.npStep (value : ℕ) (h : GridState) (p : ℕ) : GridState :=
  if Digit.solved (h p) then h else updateCell h p ((h p).erase value)

/-- The body of the loop in `DigitGroup.not_possible`, `Except`-valued:
`if not dig.solved(): dig.not_possible(value)`. -/
def DigitGroup.npStepE (value : ℕ) (h : GridState) (p : ℕ) : Except String GridState :=
  if Digit.solved (h p) then Except.ok h
  else Except.map (fun w => updateCell h p w) (Digit.not_possible (h p) value)

/-- `DigitGroup.not_possible`, pure form: eliminate `value` from every
member that is unsolved at the moment it is visited. -/
def DigitGroup.not_possibleRun (ms : List ℕ) (value : ℕ) (g : GridState) : GridState :=
  ms.foldl (DigitGroup.npStep value) g

/-- `DigitGroup.not_possible`, `Except`-valued form (faithful to the
source: a raise inside the loop aborts the whole call). -/
def DigitGroup.not_possible (ms : List ℕ) (value : ℕ) (g : GridState) :
    Except String GridState :=
  ms.foldlM (fun h p => DigitGroup.npStepE value h p) g

/-- `self.row.not_possible(self.getSolvedValue())`: the digit at `p`
tells its row group that its current value is no longer possible. -/
def Digit.propagateRow (g : GridState) (p : ℕ) : GridState :=
  DigitGroup.not_possibleRun (rowMembers (row_col_box p).1)
    (Digit.solvedValueD (g p)) g

/-- `self.col.not_possible(self.getSolvedValue())`. -/
def Digit.propagateCol (g : GridState) (p : ℕ) : GridState :=
  DigitGroup.not_possibleRun (colMembers (row_col_box p).2.1)
    (Digit.solvedValueD (g p)) g

/-- `self.box.not_possible(self.getSolvedValue())`. -/
def Digit.propagateBox (g : GridState) (p : ℕ) : GridState :=
  DigitGroup.not_possibleRun (boxMembers (row_col_box p).2.2)
    (Digit.solvedValueD (g p)) g

/-- `Digit.propagate`, pure form: if the digit at `p` is solved, tell its
row, column and box (in that order) that its value is no longer possible.
The source calls `self.getSolvedValue()` afresh before each of the three
group calls, which the staging above reproduces. -/
def Digit.propagateRun (g : GridState) (p : ℕ) : GridState :=
  if Digit.solved (g p) then
    Digit.propagateBox (Digit.propagateCol (Digit.propagateRow g p) p) p
  else g

/-- `Digit.propagate`, `Except`-valued form. -/
def Digit.propagate (g : GridState) (p : ℕ) : Except String GridState :=
  if Digit.solved (g p) then
    Except.bind (DigitGroup.not_possible (rowMembers (row_col_box p).1)
        (Digit.solvedValueD (g p)) g) (fun g1 =>
      Except.bind (DigitGroup.not_possible (colMembers (row_col_box p).2.1)
          (Digit.solvedValueD (g1 p)) g1) (fun g2 =>
        DigitGroup.not_possible (boxMembers (row_col_box p).2.2)
          (Digit.solvedValueD (g2 p)) g2))
  else Except.ok g

/-- `Grid.number_unsolved`: how many of the 81 digits are unsolved. -/
def Grid.number_unsolved (g : GridState) : ℕ :=
  (List.range 81).countP (fun p => ! Digit.solved (g p))

/-- `Grid.solved`: `0 == self.number_unsolved()`. -/
def Grid.solved (g : GridState) : Bool := Grid.number_unsolved g == 0

/-- `Grid.propagate_all`, pure form: call `propagate` on every digit,
once, in position order. -/
def Grid.propagate_allRun (g : GridState) : GridState :=
  (List.range 81).foldl Digit.propagateRun g

/-- `Grid.propagate_all`, `Except`-valued form. -/
def Grid.propagate_all (g : GridState) : Except String GridState :=
  (List.range 81).foldlM Digit.propagate g

/-- The loader's loop state: the running slot counter and the grid. -/
structure LoadState where
  counter : ℕ
  g : GridState

/-- The numeric value of a digit character (`int(c)`). -/
def charVal (c : Char) : ℕ := c.toNat - 48

/-- The body of the character loop of `Grid.load`.  The source `break`s
out of the loop once `counter > 80`; since the counter never decreases,
ignoring each remaining character is equivalent. -/
def Grid.loadStep (st : LoadState) (c : Char) : LoadState :=
  if st.counter > 80 then st
  else if c ∈ digitChars then
    ⟨st.counter + 1, updateCell st.g st.counter (Digit.setSolvedValue (charVal c))⟩
  else if c ∈ UNKNOWN_DIGIT_INPUT then
    ⟨st.counter + 1, st.g⟩
  else if c ∈ ROW_TERMINATOR then
    if st.counter % 9 ≠ 0 then ⟨9 * (st.counter / 9 + 1), st.g⟩ else st
  else st

/-- `Grid.load` (final loop state): fold the character loop over the
puzzle text, starting at slot 0. -/
def Grid.loadState (s : List Char) (g : GridState) : LoadState :=
  s.foldl Grid.loadStep ⟨0, g⟩

/-- `Grid.load`: the grid after loading the puzzle text. -/
def Grid.load (s : List Char) (g : GridState) : GridState :=
  (Grid.loadState s g).g

/-- A character that consumes a cell slot in `Grid.load`: a given digit
or an unknown marker. -/
def isSlotChar (c : Char) : Bool :=
  decide (c ∈ digitChars ∨ c ∈ UNKNOWN_DIGIT_INPUT)

/-- The driver's solve loop (the `__main__` block), with an explicit fuel
bound in place of `MAX_ITERATIONS`: stop with success if solved, stop
stalled if a `propagate_all` pass leaves the unsolved count unchanged,
else loop.  Returns `none` if the fuel runs out, otherwise the number of
`propagate_all` calls made and the final grid. -/
def solveLoop : ℕ → GridState → Option (ℕ × GridState)
  | 0, _ => none
  | fuel + 1, g =>
    if Grid.solved g then some (0, g)
    else
      let g2 := Grid.propagate_allRun g
      if Grid.number_unsolved g2 = Grid.number_unsolved g then some (1, g2)
      else
        match solveLoop fuel g2 with
        | none => none
        | some (n, g3) => some (n + 1, g3)

/-- The cell-level invariant of §8 of the spec: every candidate set is
non-empty. -/
def cellInvariant (g : GridState) : Prop := ∀ p, 1 ≤ (g p).card

/-- Whether the digit at `p` is solved with value `v` (decidably). -/
def solvedToB (g : GridState) (p v : ℕ) : Bool :=
  Digit.solved (g p) && (Digit.getSolvedValue (g p) == some v)

/-- The group-level invariant of §8 of the spec, decidably: in every
group, every value `1..9` is the solved value of at most one member. -/
def groupInvariantB (g : GridState) : Bool :=
  allGroups.all (fun ms =>
    (List.range 9).all (fun i =>
      decide (ms.countP (fun p => solvedToB g p (i + 1)) ≤ 1)))

/-- An example grid state: the cell at position 0 assigned the value 1
(as `setSolvedValue` leaves it). -/
def gEx1 : GridState := updateCell Grid.init 0 {1}

/-- An example grid state: additionally, the cell at position 1 is down to
the two candidates 1 and 2. -/
def gEx2 : GridState := updateCell gEx1 1 {1, 2}

/-! ### Basic lemmas about cells -/

theorem updateCell_self (g : GridState) (p : ℕ) (w : Finset ℕ) :
    updateCell g p w p = w := by
  simp [updateCell]

theorem updateCell_ne (g : GridState) (p q : ℕ) (w : Finset ℕ) (h : q ≠ p) :
    updateCell g p w q = g q := by
  simp [updateCell, h]

theorem solved_true_iff (v : Finset ℕ) : Digit.solved v = true ↔ v.card = 1 := by
  simp [Digit.solved]

theorem solved_false_iff (v : Finset ℕ) : Digit.solved v = false ↔ v.card ≠ 1 := by
  simp [Digit.solved]

theorem getSolvedValue_singleton (a : ℕ) : Digit.getSolvedValue {a} = some a := by
  simp [Digit.getSolvedValue, Digit.solved]

theorem getSolvedValue_eq_some {v : Finset ℕ} {a : ℕ}
    (h : Digit.getSolvedValue v = some a) : v = {a} := by
  by_cases hs : Digit.solved v = true
  · obtain ⟨b, rfl⟩ := Finset.card_eq_one.mp ((solved_true_iff v).mp hs)
    rw [getSolvedValue_singleton] at h
    cases h
    rfl
  · simp [Digit.getSolvedValue, hs] at h

theorem solved_of_getSolvedValue {v : Finset ℕ} {a : ℕ}
    (h : Digit.getSolvedValue v = some a) : Digit.solved v = true := by
  rw [getSolvedValue_eq_some h]
  simp [Digit.solved]

theorem solvedValueD_eq {v : Finset ℕ} {a : ℕ}
    (h : Digit.getSolvedValue v = some a) : Digit.solvedValueD v = a := by
  simp [Digit.solvedValueD, h]

/-! ### Lemmas about one group-elimination pass -/

theorem npStep_of_solved {g : GridState} {p : ℕ} (value : ℕ)
    (hs : Digit.solved (g p) = true) : DigitGroup.npStep value g p = g := by
  simp [DigitGroup.npStep, hs]

theorem npStep_of_not_solved {g : GridState} {p : ℕ} (value : ℕ)
    (hs : Digit.solved (g p) = false) :
    DigitGroup.npStep value g p = updateCell g p ((g p).erase value) := by
  simp [DigitGroup.npStep, hs]

theorem not_possibleRun_nil (value : ℕ) (g : GridState) :
    DigitGroup.not_possibleRun [] value g = g := rfl

theorem not_possibleRun_cons (p : ℕ) (ms : List ℕ) (value : ℕ) (g : GridState) :
    DigitGroup.not_possibleRun (p :: ms) value g =
      DigitGroup.not_possibleRun ms value (DigitGroup.npStep value g p) := rfl

theorem npStep_subset (value : ℕ) (g : GridState) (p q : ℕ) :
    DigitGroup.npStep value g p q ⊆ g q := by
  cases hs : Digit.solved (g p) with
  | true => rw [npStep_of_solved value hs]
  | false =>
    rw [npStep_of_not_solved value hs]
    by_cases hq : q = p
    · subst hq
      rw [updateCell_self]
      exact Finset.erase_subset _ _
    · rw [updateCell_ne _ _ _ _ hq]

theorem run_subset (value : ℕ) (ms : List ℕ) (g : GridState) (q : ℕ) :
    DigitGroup.not_possibleRun ms value g q ⊆ g q := by
  induction ms generalizing g with
  | nil => rw [not_possibleRun_nil]
  | cons p rest ih =>
    rw [not_possibleRun_cons]
    exact Finset.Subset.trans (ih (DigitGroup.npStep value g p)) (npStep_subset value g p q)

theorem npStep_fixed_of_solved {g : GridState} {q : ℕ} (value : ℕ) (p : ℕ)
    (hs : Digit.solved (g q) = true) : DigitGroup.npStep value g p q = g q := by
  by_cases hq : p = q
  · subst hq
    rw [npStep_of_solved value hs]
  · cases hs2 : Digit.solved (g p) with
    | true => rw [npStep_of_solved value hs2]
    | false =>
      rw [npStep_of_not_solved value hs2, updateCell_ne _ _ _ _ (fun hh => hq hh.symm)]

theorem run_solved_fixed (value : ℕ) (ms : List ℕ) (g : GridState) (q : ℕ)
    (hs : Digit.solved (g q) = true) :
    DigitGroup.not_possibleRun ms value g q = g q := by
  induction ms generalizing g with
  | nil => rw [not_possibleRun_nil]
  | cons p rest ih =>
    rw [not_possibleRun_cons]
    have hstep := npStep_fixed_of_solved value p hs
    have ihr := ih (DigitGroup.npStep value g p) (by rw [hstep]; exact hs)
    rw [ihr, hstep]

theorem run_pred_preserve (value w : ℕ) (ms : List ℕ) (g : GridState) (q : ℕ)
    (h : Digit.solved (g q) = true ∨ w ∉ g q) :
    Digit.solved (DigitGroup.not_possibleRun ms value g q) = true ∨
      w ∉ DigitGroup.not_possibleRun ms value g q := by
  cases h with
  | inl hs =>
    rw [run_solved_fixed value ms g q hs]
    exact Or.inl hs
  | inr hw => exact Or.inr (fun hmem => hw (run_subset value ms g q hmem))

theorem run_mem (value : ℕ) (ms : List ℕ) (g : GridState) (q : ℕ) :
    q ∈ ms →
    Digit.solved (DigitGroup.not_possibleRun ms value g q) = true ∨
      value ∉ DigitGroup.not_possibleRun ms value g q := by
  induction ms generalizing g with
  | nil => intro hq; cases hq
  | cons p rest ih =>
    intro hq
    rw [not_possibleRun_cons]
    rcases List.mem_cons.mp hq with hpq | hmem
    · subst hpq
      cases hs : Digit.solved (g q) with
      | true =>
        apply run_pred_preserve
        left
        rw [npStep_of_solved value hs]
        exact hs
      | false =>
        apply run_pred_preserve
        right
        rw [npStep_of_not_solved value hs, updateCell_self]
        exact Finset.not_mem_erase value (g q)
    · exact ih (DigitGroup.npStep value g p) hmem

/-! ### Lemmas about one digit's propagation -/

theorem propagateRun_of_not_solved {g : GridState} {p : ℕ}
    (hs : Digit.solved (g p) = false) : Digit.propagateRun g p = g := by
  simp [Digit.propagateRun, hs]

theorem propagateRun_of_solved {g : GridState} {p : ℕ}
    (hs : Digit.solved (g p) = true) :
    Digit.propagateRun g p =
      Digit.propagateBox (Digit.propagateCol (Digit.propagateRow g p) p) p := by
  simp [Digit.propagateRun, hs]

theorem propagateRun_subset (g : GridState) (p q : ℕ) :
    Digit.propagateRun g p q ⊆ g q := by
  cases hs : Digit.solved (g p) with
  | false => rw [propagateRun_of_not_solved hs]
  | true =>
    rw [propagateRun_of_solved hs]
    exact Finset.Subset.trans (run_subset _ _ _ _)
      (Finset.Subset.trans (run_subset _ _ _ _) (run_subset _ _ _ _))

theorem propagateRun_solved_fixed (g : GridState) (p q : ℕ)
    (hs : Digit.solved (g q) = true) : Digit.propagateRun g p q = g q := by
  cases hp : Digit.solved (g p) with
  | false => rw [propagateRun_of_not_solved hp]
  | true =>
    rw [propagateRun_of_solved hp]
    have e1 : Digit.propagateRow g p q = g q := run_solved_fixed _ _ _ _ hs
    have s1 : Digit.solved (Digit.propagateRow g p q) = true := by
      rw [e1]; exact hs
    have e2 : Digit.propagateCol (Digit.propagateRow g p) p q =
        Digit.propagateRow g p q := run_solved_fixed _ _ _ _ s1
    have s2 : Digit.solved (Digit.propagateCol (Digit.propagateRow g p) p q) = true := by
      rw [e2]; exact s1
    have e3 : Digit.propagateBox (Digit.propagateCol (Digit.propagateRow g p) p) p q =
        Digit.propagateCol (Digit.propagateRow g p) p q := run_solved_fixed _ _ _ _ s2
    rw [e3, e2, e1]

theorem propagateRun_pred_preserve (w : ℕ) (g : GridState) (p q : ℕ)
    (h : Digit.solved (g q) = true ∨ w ∉ g q) :
    Digit.solved (Digit.propagateRun g p q) = true ∨ w ∉ Digit.propagateRun g p q := by
  cases hp : Digit.solved (g p) with
  | false => rw [propagateRun_of_not_solved hp]; exact h
  | true =>
    rw [propagateRun_of_solved hp]
    exact run_pred_preserve _ _ _ _ _
      (run_pred_preserve _ _ _ _ _ (run_pred_preserve _ _ _ _ _ h))

/-! ### Lemmas about a full propagation pass -/

theorem foldPropagate_solved_fixed (l : List ℕ) (g : GridState) (q : ℕ)
    (hs : Digit.solved (g q) = true) :
    l.foldl Digit.propagateRun g q = g q := by
  induction l generalizing g with
  | nil => rfl
  | cons p rest ih =>
    rw [List.foldl_cons]
    have e := propagateRun_solved_fixed g p q hs
    have ihr := ih (Digit.propagateRun g p) (by rw [e]; exact hs)
    rw [ihr, e]

theorem foldPropagate_subset (l : List ℕ) (g : GridState) (q : ℕ) :
    l.foldl Digit.propagateRun g q ⊆ g q := by
  induction l generalizing g with
  | nil => exact Finset.Subset.refl _
  | cons p rest ih =>
    rw [List.foldl_cons]
    exact Finset.Subset.trans (ih _) (propagateRun_subset g p q)

theorem foldPropagate_pred_preserve (w : ℕ) (l : List ℕ) (g : GridState) (q : ℕ)
    (h : Digit.solved (g q) = true ∨ w ∉ g q) :
    Digit.solved (l.foldl Digit.propagateRun g q) = true ∨
      w ∉ l.foldl Digit.propagateRun g q := by
  cases h with
  | inl hs =>
    rw [foldPropagate_solved_fixed l g q hs]
    exact Or.inl hs
  | inr hw => exact Or.inr (fun hmem => hw (foldPropagate_subset l g q hmem))

theorem propagate_allRun_solved_fixed (g : GridState) (q : ℕ)
    (hs : Digit.solved (g q) = true) : Grid.propagate_allRun g q = g q :=
  foldPropagate_solved_fixed (List.range 81) g q hs

/-! ### The `Except`-valued operations never fail -/

theorem exceptOk_bind {α β : Type} (a : α) (f : α → Except String β) :
    Except.bind (Except.ok a) f = f a := rfl

theorem exceptOk_bindM {α β : Type} (a : α) (f : α → Except String β) :
    (Except.ok a : Except String α) >>= f = f a := rfl

theorem npStepE_eq_ok (value : ℕ) (h : GridState) (p : ℕ) :
    DigitGroup.npStepE value h p = Except.ok (DigitGroup.npStep value h p) := by
  cases hs : Digit.solved (h p) with
  | true => simp [DigitGroup.npStepE, DigitGroup.npStep, hs]
  | false =>
    simp [DigitGroup.npStepE, DigitGroup.npStep, Digit.not_possible, hs, Except.map]

theorem not_possible_eq_ok (ms : List ℕ) (value : ℕ) (g : GridState) :
    DigitGroup.not_possible ms value g =
      Except.ok (DigitGroup.not_possibleRun ms value g) := by
  induction ms generalizing g with
  | nil => rfl
  | cons p rest ih =>
    show List.foldlM (fun h p => DigitGroup.npStepE value h p) g (p :: rest) = _
    rw [List.foldlM_cons, npStepE_eq_ok, exceptOk_bindM, not_possibleRun_cons]
    exact ih (DigitGroup.npStep value g p)

theorem propagate_eq_ok (g : GridState) (p : ℕ) :
    Digit.propagate g p = Except.ok (Digit.propagateRun g p) := by
  cases hs : Digit.solved (g p) with
  | false => simp [Digit.propagate, Digit.propagateRun, hs]
  | true =>
    simp only [Digit.propagate, propagateRun_of_solved hs, hs, if_true]
    rw [not_possible_eq_ok, exceptOk_bind, not_possible_eq_ok, exceptOk_bind,
      not_possible_eq_ok]
    rfl

theorem foldPropagateM_eq_ok (l : List ℕ) (g : GridState) :
    l.foldlM Digit.propagate g = Except.ok (l.foldl Digit.propagateRun g) := by
  induction l generalizing g with
  | nil => rfl
  | cons p rest ih =>
    rw [List.foldlM_cons, propagate_eq_ok, exceptOk_bindM, List.foldl_cons]
    exact ih (Digit.propagateRun g p)

theorem propagate_all_eq_ok (g : GridState) :
    Grid.propagate_all g = Except.ok (Grid.propagate_allRun g) :=
  foldPropagateM_eq_ok (List.range 81) g

/-! ### Peer elimination: a solved digit's value disappears from its peers -/

theorem propagateRun_establish (g : GridState) (p q v : ℕ)
    (hv : Digit.getSolvedValue (g p) = some v)
    (hq : q ∈ rowMembers (row_col_box p).1 ∨ q ∈ colMembers (row_col_box p).2.1 ∨
      q ∈ boxMembers (row_col_box p).2.2) :
    Digit.solved (Digit.propagateRun g p q) = true ∨ v ∉ Digit.propagateRun g p q := by
  have hs : Digit.solved (g p) = true := solved_of_getSolvedValue hv
  have hv1 : Digit.solvedValueD (g p) = v := solvedValueD_eq hv
  have hrowfix : Digit.propagateRow g p p = g p := run_solved_fixed _ _ _ _ hs
  have hcolfix : Digit.propagateCol (Digit.propagateRow g p) p p =
      Digit.propagateRow g p p := run_solved_fixed _ _ _ _ (by rw [hrowfix]; exact hs)
  rw [propagateRun_of_solved hs]
  rcases hq with hr | hc | hb
  · apply run_pred_preserve
    apply run_pred_preserve
    rw [← hv1]
    exact run_mem _ _ _ _ hr
  · apply run_pred_preserve
    have hvc : Digit.solvedValueD (Digit.propagateRow g p p) = v := by
      rw [hrowfix]; exact hv1
    rw [← hvc]
    exact run_mem _ _ _ _ hc
  · have hvb : Digit.solvedValueD
        (Digit.propagateCol (Digit.propagateRow g p) p p) = v := by
      rw [hcolfix, hrowfix]; exact hv1
    rw [← hvb]
    exact run_mem _ _ _ _ hb

theorem foldPropagate_establish (l : List ℕ) (p q v : ℕ)
    (hq : q ∈ rowMembers (row_col_box p).1 ∨ q ∈ colMembers (row_col_box p).2.1 ∨
      q ∈ boxMembers (row_col_box p).2.2) :
    ∀ g : GridState, p ∈ l → Digit.getSolvedValue (g p) = some v →
    Digit.solved (l.foldl Digit.propagateRun g q) = true ∨
      v ∉ l.foldl Digit.propagateRun g q := by
  induction l with
  | nil => intro g hp _; cases hp
  | cons a rest ih =>
    intro g hp hv
    rw [List.foldl_cons]
    rcases List.mem_cons.mp hp with hpa | hmem
    · subst hpa
      exact foldPropagate_pred_preserve v rest (Digit.propagateRun g p) q
        (propagateRun_establish g p q v hv hq)
    · have hs : Digit.solved (g p) = true := solved_of_getSolvedValue hv
      have hfix : Digit.propagateRun g a p = g p := propagateRun_solved_fixed g a p hs
      exact ih (Digit.propagateRun g a) hmem (by rw [hfix]; exact hv)

/-! ### Group membership characterizations -/

theorem mem_rowMembers_iff (q r : ℕ) :
    q ∈ rowMembers r ↔ q < 81 ∧ (row_col_box q).1 = r := by
  simp [rowMembers, List.mem_filter, List.mem_range]

theorem mem_colMembers_iff (q c : ℕ) :
    q ∈ colMembers c ↔ q < 81 ∧ (row_col_box q).2.1 = c := by
  simp [colMembers, List.mem_filter, List.mem_range]

theorem mem_boxMembers_iff (q b : ℕ) :
    q ∈ boxMembers b ↔ q < 81 ∧ (row_col_box q).2.2 = b := by
  simp [boxMembers, List.mem_filter, List.mem_range]

/-! ### Counting unsolved digits -/

theorem number_unsolved_mono (g : GridState) :
    Grid.number_unsolved (Grid.propagate_allRun g) ≤ Grid.number_unsolved g := by
  unfold Grid.number_unsolved
  apply List.countP_mono_left
  intro x _ hx
  cases hsx : Digit.solved (g x) with
  | false => simp [hsx]
  | true =>
    exfalso
    have hfix : Digit.solved (Grid.propagate_allRun g x) = true := by
      rw [propagate_allRun_solved_fixed g x hsx]
      exact hsx
    simp [hfix] at hx

theorem number_unsolved_le (g : GridState) : Grid.number_unsolved g ≤ 81 := by
  have h := @List.countP_le_length ℕ (fun p => ! Digit.solved (g p)) (List.range 81)
  simpa [Grid.number_unsolved] using h

/-! ### The non-empty-candidate-set invariant -/

theorem cellInvariant_init : cellInvariant Grid.init := by
  intro p
  show 1 ≤ ({1, 2, 3, 4, 5, 6, 7, 8, 9} : Finset ℕ).card
  decide

theorem cellInvariant_updateCell {g : GridState} (p : ℕ) {w : Finset ℕ}
    (hg : cellInvariant g) (hw : 1 ≤ w.card) :
    cellInvariant (updateCell g p w) := by
  intro q
  by_cases hq : q = p
  · subst hq
    rw [updateCell_self]
    exact hw
  · rw [updateCell_ne _ _ _ _ hq]
    exact hg q

theorem cellInvariant_npStep (value : ℕ) {g : GridState} (p : ℕ)
    (hg : cellInvariant g) : cellInvariant (DigitGroup.npStep value g p) := by
  cases hs : Digit.solved (g p) with
  | true =>
    rw [npStep_of_solved value hs]
    exact hg
  | false =>
    rw [npStep_of_not_solved value hs]
    apply cellInvariant_updateCell p hg
    have h1 := hg p
    have hne := (solved_false_iff (g p)).mp hs
    by_cases hv : value ∈ g p
    · rw [Finset.card_erase_of_mem hv]
      omega
    · rw [Finset.erase_eq_of_not_mem hv]
      omega

theorem cellInvariant_run (value : ℕ) (ms : List ℕ) {g : GridState}
    (hg : cellInvariant g) : cellInvariant (DigitGroup.not_possibleRun ms value g) := by
  induction ms generalizing g with
  | nil => exact hg
  | cons p rest ih =>
    rw [not_possibleRun_cons]
    exact ih (cellInvariant_npStep value p hg)

theorem cellInvariant_propagateRun {g : GridState} (p : ℕ)
    (hg : cellInvariant g) : cellInvariant (Digit.propagateRun g p) := by
  cases hs : Digit.solved (g p) with
  | false =>
    rw [propagateRun_of_not_solved hs]
    exact hg
  | true =>
    rw [propagateRun_of_solved hs]
    exact cellInvariant_run _ _ (cellInvariant_run _ _ (cellInvariant_run _ _ hg))

theorem cellInvariant_foldPropagate (l : List ℕ) {g : GridState}
    (hg : cellInvariant g) : cellInvariant (l.foldl Digit.propagateRun g) := by
  induction l generalizing g with
  | nil => exact hg
  | cons p rest ih =>
    rw [List.foldl_cons]
    exact ih (cellInvariant_propagateRun p hg)

theorem cellInvariant_propagate_allRun {g : GridState}
    (hg : cellInvariant g) : cellInvariant (Grid.propagate_allRun g) :=
  cellInvariant_foldPropagate (List.range 81) hg

theorem cellInvariant_loadStep (st : LoadState) (c : Char)
    (hg : cellInvariant st.g) : cellInvariant (Grid.loadStep st c).g := by
  unfold Grid.loadStep
  repeat' split
  all_goals
    first
    | exact hg
    | exact cellInvariant_updateCell _ hg (by simp [Digit.setSolvedValue])

theorem cellInvariant_loadAux (s : List Char) (st : LoadState)
    (hg : cellInvariant st.g) : cellInvariant (s.foldl Grid.loadStep st).g := by
  induction s generalizing st with
  | nil => exact hg
  | cons c rest ih =>
    rw [List.foldl_cons]
    exact ih _ (cellInvariant_loadStep st c hg)

theorem cellInvariant_load (s : List Char) (g : GridState)
    (hg : cellInvariant g) : cellInvariant (Grid.load s g) :=
  cellInvariant_loadAux s ⟨0, g⟩ hg

/-! ### Lemmas about the loader's slot counter -/

theorem loadStep_big (st : LoadState) (c : Char) (h : st.counter > 80) :
    Grid.loadStep st c = st := by
  unfold Grid.loadStep
  rw [if_pos h]

theorem loadStep_counter_mono (st : LoadState) (c : Char) :
    st.counter ≤ (Grid.loadStep st c).counter := by
  unfold Grid.loadStep
  repeat' split
  all_goals try dsimp only
  all_goals omega

theorem loadStep_counter_le (st : LoadState) (c : Char) (h : st.counter ≤ 81) :
    (Grid.loadStep st c).counter ≤ 81 := by
  unfold Grid.loadStep
  repeat' split
  all_goals try dsimp only
  all_goals omega

theorem loadStep_counter_slot (st : LoadState) (c : Char) (hc : isSlotChar c = true)
    (h : st.counter ≤ 80) : (Grid.loadStep st c).counter = st.counter + 1 := by
  unfold Grid.loadStep
  rw [if_neg (by omega)]
  by_cases hd : c ∈ digitChars
  · rw [if_pos hd]
  · have hu : c ∈ UNKNOWN_DIGIT_INPUT := by
      have := of_decide_eq_true hc
      rcases this with h1 | h1
      · exact absurd h1 hd
      · exact h1
    rw [if_neg hd, if_pos hu]

theorem loadStep_not_slot_term (st : LoadState) (c : Char)
    (hd : c ∉ digitChars) (hu : c ∉ UNKNOWN_DIGIT_INPUT)
    (ht : c ∉ ROW_TERMINATOR) : Grid.loadStep st c = st := by
  unfold Grid.loadStep
  by_cases h80 : st.counter > 80
  · rw [if_pos h80]
  · rw [if_neg h80, if_neg hd, if_neg hu, if_neg ht]

theorem loadStep_term (st : LoadState) (c : Char) (hc : c ∈ ROW_TERMINATOR)
    (h : st.counter ≤ 80) :
    Grid.loadStep st c = ⟨9 * ((st.counter + 8) / 9), st.g⟩ := by
  have hc2 : c = '\n' ∨ c = '\r' := by simpa [ROW_TERMINATOR] using hc
  have hd : c ∉ digitChars := by
    rcases hc2 with rfl | rfl <;> decide
  have hu : c ∉ UNKNOWN_DIGIT_INPUT := by
    rcases hc2 with rfl | rfl <;> decide
  unfold Grid.loadStep
  rw [if_neg (by omega), if_neg hd, if_neg hu, if_pos hc]
  by_cases h9 : st.counter % 9 = 0
  · rw [if_neg (by omega)]
    have e : 9 * ((st.counter + 8) / 9) = st.counter := by omega
    rw [e]
  · rw [if_pos (by omega)]
    have e : 9 * (st.counter / 9 + 1) = 9 * ((st.counter + 8) / 9) := by omega
    rw [e]

theorem loadStep_term_mult (st : LoadState) (c : Char) (hc : c ∈ ROW_TERMINATOR)
    (h9 : st.counter % 9 = 0) : Grid.loadStep st c = st := by
  by_cases h80 : st.counter > 80
  · exact loadStep_big st c h80
  · rw [loadStep_term st c hc (by omega)]
    have e : 9 * ((st.counter + 8) / 9) = st.counter := by omega
    rw [e]

theorem load_counter_le (s : List Char) : ∀ st : LoadState, st.counter ≤ 81 →
    (s.foldl Grid.loadStep st).counter ≤ 81 := by
  induction s with
  | nil => intro st h; exact h
  | cons c rest ih =>
    intro st h
    rw [List.foldl_cons]
    exact ih _ (loadStep_counter_le st c h)

theorem load_counter_lower (s : List Char) : ∀ st : LoadState,
    min 81 (st.counter + s.countP isSlotChar) ≤ (s.foldl Grid.loadStep st).counter := by
  induction s with
  | nil =>
    intro st
    simp only [List.countP_nil, Nat.add_zero, List.foldl_nil]
    exact min_le_right 81 st.counter
  | cons c rest ih =>
    intro st
    rw [List.foldl_cons, List.countP_cons]
    have hmain := ih (Grid.loadStep st c)
    have hstep : min 81 (st.counter + (rest.countP isSlotChar +
        if isSlotChar c = true then 1 else 0)) ≤
        min 81 ((Grid.loadStep st c).counter + rest.countP isSlotChar) := by
      by_cases hc : isSlotChar c = true
      · rw [if_pos hc]
        by_cases h80 : st.counter ≤ 80
        · rw [loadStep_counter_slot st c hc h80]
          omega
        · rw [loadStep_big st c (by omega)]
          omega
      · rw [if_neg hc]
        have hmono := loadStep_counter_mono st c
        omega
    exact le_trans hstep hmain

/-! ### Termination of the driver loop -/

theorem solved_false_pos {g : GridState} (hs : Grid.solved g = false) :
    1 ≤ Grid.number_unsolved g := by
  simp only [Grid.solved, beq_eq_false_iff_ne, ne_eq] at hs
  omega

theorem solveLoop_total : ∀ (fuel : ℕ) (g : GridState),
    Grid.number_unsolved g < fuel →
    ∃ n g3, solveLoop fuel g = some (n, g3) ∧ n ≤ Grid.number_unsolved g := by
  intro fuel
  induction fuel with
  | zero => intro g h; exact absurd h (Nat.not_lt_zero _)
  | succ f ih =>
    intro g h
    cases hs : Grid.solved g with
    | true =>
      refine ⟨0, g, ?_, Nat.zero_le _⟩
      simp [solveLoop, hs]
    | false =>
      have hpos := solved_false_pos hs
      by_cases heq : Grid.number_unsolved (Grid.propagate_allRun g) =
          Grid.number_unsolved g
      · refine ⟨1, Grid.propagate_allRun g, ?_, hpos⟩
        simp [solveLoop, hs, heq]
      · have hlt : Grid.number_unsolved (Grid.propagate_allRun g) <
            Grid.number_unsolved g :=
          lt_of_le_of_ne (number_unsolved_mono g) heq
        obtain ⟨n, g3, he, hn⟩ := ih (Grid.propagate_allRun g) (by omega)
        refine ⟨n + 1, g3, ?_, by omega⟩
        simp [solveLoop, hs, heq, he]

theorem propagate_allRun_establish (g : GridState) (p q v : ℕ) (hp : p < 81)
    (hv : Digit.getSolvedValue (g p) = some v)
    (hmem : q ∈ rowMembers (row_col_box p).1 ∨ q ∈ colMembers (row_col_box p).2.1 ∨
      q ∈ boxMembers (row_col_box p).2.2) :
    Digit.solved (Grid.propagate_allRun g q) = true ∨ v ∉ Grid.propagate_allRun g q :=
  foldPropagate_establish (List.range 81) p q v hmem g (List.mem_range.mpr hp) hv

set_option maxRecDepth 1000000

/-! ### The claims -/

/-- C1: for every grid state and every cell `p` solved with value `v`,
after `propagate()` on `p` (equivalently, as part of `propagate_all()`),
every other cell sharing `p`'s row, column or box that is not solved no
longer has `v` in its candidate set. -/
theorem peerEliminationCorrect (g : GridState) (p q v : ℕ)
    (hp : p < 81) (hq81 : q < 81) (_hqp : q ≠ p)
    (hv : Digit.getSolvedValue (g p) = some v)
    (hshare : (row_col_box q).1 = (row_col_box p).1 ∨
      (row_col_box q).2.1 = (row_col_box p).2.1 ∨
      (row_col_box q).2.2 = (row_col_box p).2.2) :
    (Digit.solved (Digit.propagateRun g p q) = false →
      v ∉ Digit.propagateRun g p q) ∧
    (∀ g2, Grid.propagate_all g = Except.ok g2 →
      Digit.solved (g2 q) = false → v ∉ g2 q) := by
  have hmem : q ∈ rowMembers (row_col_box p).1 ∨
      q ∈ colMembers (row_col_box p).2.1 ∨ q ∈ boxMembers (row_col_box p).2.2 := by
    rcases hshare with h | h | h
    · exact Or.inl ((mem_rowMembers_iff q _).mpr ⟨hq81, h⟩)
    · exact Or.inr (Or.inl ((mem_colMembers_iff q _).mpr ⟨hq81, h⟩))
    · exact Or.inr (Or.inr ((mem_boxMembers_iff q _).mpr ⟨hq81, h⟩))
  constructor
  · intro hns
    rcases propagateRun_establish g p q v hv hmem with hsolved | hnotin
    · rw [hns] at hsolved
      cases hsolved
    · exact hnotin
  · intro g2 hok hns
    rw [propagate_all_eq_ok g] at hok
    injection hok with hok2
    subst hok2
    rcases propagate_allRun_establish g p q v hp hv hmem with hsolved | hnotin
    · rw [hns] at hsolved
      cases hsolved
    · exact hnotin

/-- C1 witness: in `gEx1` (cell 0 solved to 1), after propagating cell 0
the neighbouring cell 1 no longer has candidate 1, both after the single
`propagate` and after a full `propagate_all` pass. -/
theorem peerEliminationCorrect_witness :
    (1 : ℕ) ∉ Digit.propagateRun gEx1 0 1 ∧
    (1 : ℕ) ∉ Grid.propagate_allRun gEx1 1 :=
  ⟨(peerEliminationCorrect gEx1 0 1 1 (by decide) (by decide) (by decide)
      (by decide) (by decide)).1 (by decide),
   (peerEliminationCorrect gEx1 0 1 1 (by decide) (by decide) (by decide)
      (by decide) (by decide)).2 (Grid.propagate_allRun gEx1)
      (propagate_all_eq_ok gEx1) (by decide)⟩

/-- C2: the number of unsolved digits never increases across a
`propagate_all()` call. -/
theorem numberUnsolvedMonotone (g g2 : GridState)
    (hok : Grid.propagate_all g = Except.ok g2) :
    Grid.number_unsolved g2 ≤ Grid.number_unsolved g := by
  rw [propagate_all_eq_ok g] at hok
  injection hok with h
  subst h
  exact number_unsolved_mono g

/-- C2 witness: a `propagate_all` pass on `gEx2` does not increase the
unsolved count. -/
theorem numberUnsolvedMonotone_witness :
    Grid.number_unsolved (Grid.propagate_allRun gEx2) ≤ Grid.number_unsolved gEx2 :=
  numberUnsolvedMonotone gEx2 (Grid.propagate_allRun gEx2) (propagate_all_eq_ok gEx2)

/-- C3: every candidate set holds at least one element after
construction, and `load`, `setSolvedValue` assignment and
`propagate_all` (when it returns without raising) all preserve this. -/
theorem candidatesNonempty :
    cellInvariant Grid.init ∧
    (∀ s g, cellInvariant g → cellInvariant (Grid.load s g)) ∧
    (∀ g p myvalue, cellInvariant g →
      cellInvariant (updateCell g p (Digit.setSolvedValue myvalue))) ∧
    (∀ g g2, cellInvariant g → Grid.propagate_all g = Except.ok g2 →
      cellInvariant g2) := by
  refine ⟨cellInvariant_init, ?_, ?_, ?_⟩
  · intro s g hg
    exact cellInvariant_load s g hg
  · intro g p myvalue hg
    exact cellInvariant_updateCell p hg (by simp [Digit.setSolvedValue])
  · intro g g2 hg hok
    rw [propagate_all_eq_ok g] at hok
    injection hok with h
    subst h
    exact cellInvariant_propagate_allRun hg

/-- C3 witness: after loading the text `"11"` into a fresh grid, every
candidate set is still non-empty. -/
theorem candidatesNonempty_witness :
    cellInvariant (Grid.load ['1', '1'] Grid.init) :=
  candidatesNonempty.2.1 ['1', '1'] Grid.init cellInvariant_init

/-- C4 counterexample: the group invariant does hold after construction,
but loading the text `"11"` (two identical givens in row 0) produces a
grid violating it, so it is not preserved by every `load`. -/
theorem groupInvariantNotPreserved :
    groupInvariantB Grid.init = true ∧
    groupInvariantB (Grid.load ['1', '1'] Grid.init) = false := by
  constructor
  · decide
  · decide

/-- C4 amended: for every group and every value 1-9, at most one member
cell is solved to that value after construction (vacuously, as no cell is
solved); the invariant is a design goal of the algorithm, not something
enforced or preserved by `load`/`assign` on inconsistent input. -/
theorem groupInvariantAfterConstruction : groupInvariantB Grid.init = true := by
  decide

/-- C5: cell-level elimination raises exactly when the cell is already
solved; on an unsolved cell it discards the value (a no-op when the value
is absent) and never raises. -/
theorem eliminateRaisesIffSolved (v : Finset ℕ) (value : ℕ) :
    ((∃ e, Digit.not_possible v value = Except.error e) ↔ Digit.solved v = true) ∧
    (Digit.solved v = false →
      Digit.not_possible v value = Except.ok (v.erase value) ∧
      value ∉ v.erase value ∧ (value ∉ v → v.erase value = v)) := by
  constructor
  · constructor
    · intro h
      obtain ⟨e, he⟩ := h
      cases hs : Digit.solved v with
      | true => rfl
      | false => simp [Digit.not_possible, hs] at he
    · intro hs
      exact ⟨"at least one value has to be possible",
        by simp [Digit.not_possible, hs]⟩
  · intro hs
    refine ⟨by simp [Digit.not_possible, hs], Finset.not_mem_erase value v, ?_⟩
    intro hnv
    exact Finset.erase_eq_of_not_mem hnv

/-- C5 witness: eliminating 3 from the unsolved cell `{1, 2}` returns the
set unchanged without raising, and eliminating 2 from the solved cell
`{1}` raises. -/
theorem eliminateRaisesIffSolved_witness :
    Digit.not_possible {1, 2} 3 = Except.ok {1, 2} ∧
    (∃ e, Digit.not_possible {1} 2 = Except.error e) := by
  constructor
  · have h := (eliminateRaisesIffSolved {1, 2} 3).2 (by decide)
    rw [h.1, h.2.2 (by decide)]
  · exact (eliminateRaisesIffSolved {1} 2).1.mpr (by decide)

/-- C6 counterexample: on the empty input string the loader consumes 0
cell slots, not exactly 81, so "consumes exactly 81 slots" fails for
arbitrary input strings. -/
theorem loadNotAlways81 :
    (Grid.loadState [] Grid.init).counter = 0 ∧
    (Grid.loadState [] Grid.init).counter ≠ 81 := by
  constructor
  · rfl
  · decide

/-- C6 amended: the loader consumes at most 81 cell slots, and exactly 81
whenever the input holds at least 81 slot-consuming characters (digits
1-9 or unknown markers); unrecognized characters leave the state
untouched, and a row terminator leaves the grid untouched and moves the
slot counter to the least multiple of 9 at or above it. -/
theorem loadParsing :
    (∀ (s : List Char) (g : GridState), (Grid.loadState s g).counter ≤ 81) ∧
    (∀ (s : List Char) (g : GridState), 81 ≤ s.countP isSlotChar →
      (Grid.loadState s g).counter = 81) ∧
    (∀ (st : LoadState) (c : Char), isSlotChar c = false → c ∉ ROW_TERMINATOR →
      Grid.loadStep st c = st) ∧
    (∀ (st : LoadState) (c : Char), c ∈ ROW_TERMINATOR → st.counter ≤ 80 →
      Grid.loadStep st c = ⟨9 * ((st.counter + 8) / 9), st.g⟩) := by
  refine ⟨?_, ?_, ?_, ?_⟩
  · intro s g
    exact load_counter_le s ⟨0, g⟩ (Nat.zero_le 81)
  · intro s g hcount
    have hle : (s.foldl Grid.loadStep ⟨0, g⟩).counter ≤ 81 :=
      load_counter_le s ⟨0, g⟩ (Nat.zero_le 81)
    have hlow : min 81 (0 + s.countP isSlotChar) ≤
        (s.foldl Grid.loadStep ⟨0, g⟩).counter := load_counter_lower s ⟨0, g⟩
    show (s.foldl Grid.loadStep ⟨0, g⟩).counter = 81
    omega
  · intro st c hslot hterm
    have hd : c ∉ digitChars := fun hin => by simp [isSlotChar, hin] at hslot
    have hu : c ∉ UNKNOWN_DIGIT_INPUT := fun hin => by
      simp [isSlotChar, hin] at hslot
    exact loadStep_not_slot_term st c hd hu hterm
  · intro st c hc h80
    exact loadStep_term st c hc h80

/-- C6 witness: 81 unknown markers fill exactly 81 slots; an unrecognized
character is a no-op; a terminator at slot 3 pads to slot 9. -/
theorem loadParsing_witness :
    (Grid.loadState (List.replicate 81 '.') Grid.init).counter = 81 ∧
    Grid.loadStep ⟨0, Grid.init⟩ 'x' = ⟨0, Grid.init⟩ ∧
    Grid.loadStep ⟨3, Grid.init⟩ '\n' = ⟨9, Grid.init⟩ :=
  ⟨loadParsing.2.1 (List.replicate 81 '.') Grid.init (by decide),
   loadParsing.2.2.1 ⟨0, Grid.init⟩ 'x' (by decide) (by decide),
   loadParsing.2.2.2 ⟨3, Grid.init⟩ '\n' (by decide) (by decide)⟩

/-- C7: the cell at linear position `p` belongs to (and back-references,
via `row_col_box`) row `p/9`, column `p%9` and box `(p/9/3)*3 + (p%9/3)`;
in particular position 35 is in row 3, column 8, box 5. -/
theorem cellGroupMembership :
    (∀ p, p < 81 →
      row_col_box p = (p / 9, p % 9, p / 9 / 3 * 3 + p % 9 / 3) ∧
      p ∈ rowMembers (p / 9) ∧ p ∈ colMembers (p % 9) ∧
      p ∈ boxMembers (p / 9 / 3 * 3 + p % 9 / 3)) ∧
    row_col_box 35 = (3, 8, 5) := by
  constructor
  · intro p hp
    refine ⟨rfl, ?_, ?_, ?_⟩
    · exact (mem_rowMembers_iff p _).mpr ⟨hp, rfl⟩
    · exact (mem_colMembers_iff p _).mpr ⟨hp, rfl⟩
    · exact (mem_boxMembers_iff p _).mpr ⟨hp, rfl⟩
  · rfl

/-- C7 witness: position 35 is a member of row group 3, column group 8
and box group 5. -/
theorem cellGroupMembership_witness :
    35 ∈ rowMembers 3 ∧ 35 ∈ colMembers 8 ∧ 35 ∈ boxMembers 5 :=
  ⟨(cellGroupMembership.1 35 (by decide)).2.1,
   (cellGroupMembership.1 35 (by decide)).2.2.1,
   (cellGroupMembership.1 35 (by decide)).2.2.2⟩

/-- C8: for every grid state the driver's solve loop (stop if solved;
propagate; stop if the unsolved count is unchanged) terminates, making at
most 81 `propagate_all` calls, because every pass that does not stop
strictly decreases the unsolved count by at least 1. -/
theorem solveLoopTerminates :
    (∀ g : GridState, ∃ n g3, solveLoop 82 g = some (n, g3) ∧ n ≤ 81) ∧
    (∀ g : GridState, Grid.solved g = false →
      Grid.number_unsolved (Grid.propagate_allRun g) ≠ Grid.number_unsolved g →
      Grid.number_unsolved (Grid.propagate_allRun g) < Grid.number_unsolved g) := by
  constructor
  · intro g
    have h81 := number_unsolved_le g
    obtain ⟨n, g3, he, hn⟩ := solveLoop_total 82 g (by omega)
    exact ⟨n, g3, he, by omega⟩
  · intro g _ hne
    exact lt_of_le_of_ne (number_unsolved_mono g) hne

/-- C8 witness: on `gEx2` (one solved cell, one two-candidate neighbour)
a non-stalled pass strictly decreases the unsolved count. -/
theorem solveLoopTerminates_witness :
    Grid.number_unsolved (Grid.propagate_allRun gEx2) < Grid.number_unsolved gEx2 :=
  solveLoopTerminates.2 gEx2 (by decide) (by decide)

/-- C9: `propagate_all()` never raises the solved-cell elimination error,
for every grid state: it always returns the pure propagation result,
because the group loop only eliminates from members unsolved at that
moment. -/
theorem propagateAllNeverRaises (g : GridState) :
    Grid.propagate_all g = Except.ok (Grid.propagate_allRun g) :=
  propagate_all_eq_ok g

/-- C10: a row terminator seen when the slot counter is at a multiple of
9 changes nothing, and hence a second consecutive row terminator never
has any effect. -/
theorem rowTerminatorIdempotent (st : LoadState) (c cc : Char)
    (hc : c ∈ ROW_TERMINATOR) (hcc : cc ∈ ROW_TERMINATOR) :
    (st.counter % 9 = 0 → Grid.loadStep st c = st) ∧
    Grid.loadStep (Grid.loadStep st c) cc = Grid.loadStep st c := by
  constructor
  · intro h9
    exact loadStep_term_mult st c hc h9
  · by_cases h80 : st.counter > 80
    · rw [loadStep_big st c h80]
      exact loadStep_big st cc h80
    · rw [loadStep_term st c hc (by omega)]
      by_cases hbig : 9 * ((st.counter + 8) / 9) > 80
      · exact loadStep_big _ cc hbig
      · exact loadStep_term_mult _ cc hcc (Nat.mul_mod_right 9 _)

/-- C10 witness: a newline at counter 9 is a no-op, and a newline after a
carriage return adds nothing beyond the carriage return. -/
theorem rowTerminatorIdempotent_witness :
    Grid.loadStep ⟨9, Grid.init⟩ '\n' = ⟨9, Grid.init⟩ ∧
    Grid.loadStep (Grid.loadStep ⟨3, Grid.init⟩ '\r') '\n' =
      Grid.loadStep ⟨3, Grid.init⟩ '\r' :=
  ⟨(rowTerminatorIdempotent ⟨9, Grid.init⟩ '\n' '\n' (by decide) (by decide)).1
      (by decide),
   (rowTerminatorIdempotent ⟨3, Grid.init⟩ '\r' '\n' (by decide) (by decide)).2⟩
